import Mathlib

/-!
Verification of the tide-times backend against its specification.

This file shallowly embeds the relevant parts of the repository:
  * `src/backend/app/services/tide_calculator.py` (harmonic synthesis,
    hourly sampling, extrema detection with parabolic refinement,
    subordinate-station offsets),
  * `src/backend/app/services/cache_builder.py` (hourly persistence filter),
  * `src/backend/app/services/tide_scraper.py` (forecast parsing and the
    overlay pass over the predictions table).

Conventions of the embedding:
  * Python `datetime` values are rational numbers of seconds on the naive
    UTC timeline, measured from the engine epoch `datetime(2026, 1, 1)`;
    truncation `datetime(d.year, d.month, d.day)` is flooring to a
    multiple of 86400.
  * Python floats are embedded as `ℚ` with the literal threshold
    constants of the source (`1e-10` becomes `1 / 10 ^ 10`).
  * The external `uptide` library call `from_amplitude_phase` for one
    location's constituents is an abstract function `ℚ → ℚ` carried in
    the per-location data, since `uptide` is an external collaborator.
  * A raised `KeyError` (dictionary lookup miss) is embedded as `none` of
    an `Option` result.
  * Python's stable ascending `list.sort` is `List.insertionSort` on the
    sort key, which is stable in the same sense.
-/

/-- `offsets_from_newquay` entry of the harmonics dataset
(`StationOffset` of the spec). -/
structure StationOffset where
  time_hw_min : ℚ
  time_lw_min : ℚ
  height_hw_m : ℚ
  height_lw_m : ℚ
deriving DecidableEq

/-- Per-location slice of the loaded harmonics dataset: the uptide
synthesis function built from this location's constituents (abstract,
external library), the mean level, and the optional subordinate-station
offsets. -/
structure LocData where
  synth : ℚ → ℚ
  mean_level : ℚ
  offsets : Option StationOffset

/-- The `TideCalculator` state after `__init__`: the per-location data
keyed by location identifier (`none` models a `KeyError` on lookup). -/
structure TideCalc where
  locs : String → Option LocData

/-- `self._offsets.get(location)`: `none` both for an unknown location and
for a known location without `offsets_from_newquay`. -/
def offsetsOf (c : TideCalc) (loc : String) : Option StationOffset :=
  (c.locs loc).bind (fun d => d.offsets)

/-- `base_loc = "newquay" if self._offsets.get(location) else location`. -/
def baseLocOf (c : TideCalc) (loc : String) : String :=
  if (offsetsOf c loc).isSome then "newquay" else loc

/-- `datetime(date.year, date.month, date.day)`: truncation of an instant
to its day's midnight. -/
def dayStart (t : ℚ) : ℚ :=
  86400 * (⌊t / 86400⌋ : ℤ)

/-- `TideCalculator.height_at`: harmonic synthesis at the base location
plus, for a subordinate station, the average of the two height offsets. -/
def height_at (c : TideCalc) (loc : String) (t : ℚ) : Option ℚ :=
  match c.locs (baseLocOf c loc) with
  | none => none
  | some base =>
    let h := base.mean_level + base.synth t
    match offsetsOf c loc with
    | some o => some (h + (o.height_hw_m / 2 + o.height_lw_m / 2))
    | none => some h

/-- `TideCalculator.hourly_heights`: heights at hour offsets 0 through 24
from the day's midnight (a raised lookup error anywhere gives `none`). -/
def hourly_heights (c : TideCalc) (loc : String) (t : ℚ) : Option (List (ℚ × ℚ)) :=
  (List.range 25).mapM (fun hr : ℕ =>
    (height_at c loc (dayStart t + 3600 * (hr : ℚ))).map
      (fun h => (dayStart t + 3600 * (hr : ℚ), h)))

/-- The 6-minute sampling loop `while t <= end: ...; t += step` of
`find_extremes` (`step = timedelta(minutes=6)` is 360 seconds). -/
def scanGrid (stop : ℚ) (t : ℚ) : List ℚ :=
  if h : t ≤ stop then t :: scanGrid stop (t + 360) else []
termination_by (⌊(stop - t) / 360⌋ + 1).toNat
decreasing_by
  have hfl : ⌊(stop - (t + 360)) / 360⌋ = ⌊(stop - t) / 360⌋ - 1 := by
    have : (stop - (t + 360)) / 360 = (stop - t) / 360 - 1 := by ring
    rw [this, Int.floor_sub_one]
  have hnn : (0 : ℤ) ≤ ⌊(stop - t) / 360⌋ := by
    apply Int.floor_nonneg.2
    have : (0 : ℚ) ≤ stop - t := by linarith
    positivity
  omega

/-- The sample times of `find_extremes` for the day containing `t`:
`start = datetime(date.year, date.month, date.day) - timedelta(hours=1)`,
`end = start + timedelta(hours=26)`, scanned at 6-minute intervals. -/
def gridTimes (t : ℚ) : List ℚ :=
  scanGrid (dayStart t - 3600 + 26 * 3600) (dayStart t - 3600)

/-- The sampled heights of `find_extremes`: mean level plus synthesis at
every grid time, for the base location's data. -/
def heightsFor (base : LocData) (times : List ℚ) : List ℚ :=
  times.map (fun u => base.mean_level + base.synth u)

/-- One entry of the list returned by `find_extremes`
(`{"datetime": ..., "height": ..., "type": ...}`). -/
structure Ev where
  datetime : ℚ
  height : ℚ
  type : String
deriving DecidableEq

/-- `denom = (t0 - t1) * (t0 - t2) * (t1 - t2)` of `_refine_extreme`. -/
def fitDenom (t0 t1 t2 : ℚ) : ℚ :=
  (t0 - t1) * (t0 - t2) * (t1 - t2)

/-- Coefficient `a` of `_refine_extreme`. -/
def fitA (t0 t1 t2 h0 h1 h2 : ℚ) : ℚ :=
  (t2 * (h1 - h0) + t1 * (h0 - h2) + t0 * (h2 - h1)) / fitDenom t0 t1 t2

/-- Coefficient `b` of `_refine_extreme`. -/
def fitB (t0 t1 t2 h0 h1 h2 : ℚ) : ℚ :=
  (t2 * t2 * (h0 - h1) + t1 * t1 * (h2 - h0) + t0 * t0 * (h1 - h2)) / fitDenom t0 t1 t2

/-- `TideCalculator._refine_extreme`. Degenerate fits return the raw
sample; otherwise the vertex time `-b / (2 a)` is returned together with
the raw sampled height `heights[idx]`. The source also re-evaluates
`height_at` at the refined time for the effectively dead `refined_h`
binding, whose only observable effect is a `KeyError` when `"newquay"`
is absent from the dataset; that is the `none` case of the final
`Option.map` below. -/
def refineExtreme (c : TideCalc) (times heights : List ℚ) (idx : ℕ) : Option (ℚ × ℚ) :=
  if |fitDenom (times.getD (idx - 1) 0) (times.getD idx 0) (times.getD (idx + 1) 0)|
      < 1 / 10 ^ 10 then
    some (times.getD idx 0, heights.getD idx 0)
  else if |fitA (times.getD (idx - 1) 0) (times.getD idx 0) (times.getD (idx + 1) 0)
      (heights.getD (idx - 1) 0) (heights.getD idx 0) (heights.getD (idx + 1) 0)|
      < 1 / 10 ^ 10 then
    some (times.getD idx 0, heights.getD idx 0)
  else
    (height_at c "newquay"
        (-fitB (times.getD (idx - 1) 0) (times.getD idx 0) (times.getD (idx + 1) 0)
            (heights.getD (idx - 1) 0) (heights.getD idx 0) (heights.getD (idx + 1) 0) /
          (2 * fitA (times.getD (idx - 1) 0) (times.getD idx 0) (times.getD (idx + 1) 0)
            (heights.getD (idx - 1) 0) (heights.getD idx 0) (heights.getD (idx + 1) 0)))).map
      (fun _ =>
        (-fitB (times.getD (idx - 1) 0) (times.getD idx 0) (times.getD (idx + 1) 0)
            (heights.getD (idx - 1) 0) (heights.getD idx 0) (heights.getD (idx + 1) 0) /
          (2 * fitA (times.getD (idx - 1) 0) (times.getD idx 0) (times.getD (idx + 1) 0)
            (heights.getD (idx - 1) 0) (heights.getD idx 0) (heights.getD (idx + 1) 0)),
          heights.getD idx 0))

/-- The candidate-detection loop of `find_extremes`
(`for i in range(1, len(heights) - 1)`), over an explicit list of loop
indices. Each strict three-point extremum is refined, filtered by whether
its refined time falls inside the nominal day, and given the
type-appropriate subordinate offsets. `candEvents` is the day filter
plus event construction for one refined candidate. -/
def candEvents (dayS tOff hOff : ℚ) (ty : String) (rr : ℚ × ℚ) : List Ev :=
  if dayS ≤ rr.1 ∧ rr.1 < dayS + 86400 then [Ev.mk (rr.1 + tOff) (rr.2 + hOff) ty] else []

def detectLoop (c : TideCalc) (dayS tHW hHW tLW hLW : ℚ)
    (times heights : List ℚ) : List ℕ → Option (List Ev)
  | [] => some []
  | i :: is =>
    if heights.getD i 0 > heights.getD (i - 1) 0 ∧ heights.getD i 0 > heights.getD (i + 1) 0 then
      (refineExtreme c times heights i).bind (fun rr =>
        (detectLoop c dayS tHW hHW tLW hLW times heights is).map
          (fun rest => candEvents dayS tHW hHW "high" rr ++ rest))
    else if heights.getD i 0 < heights.getD (i - 1) 0 ∧
        heights.getD i 0 < heights.getD (i + 1) 0 then
      (refineExtreme c times heights i).bind (fun rr =>
        (detectLoop c dayS tHW hHW tLW hLW times heights is).map
          (fun rest => candEvents dayS tLW hLW "low" rr ++ rest))
    else detectLoop c dayS tHW hHW tLW hLW times heights is

/-- The sort key of `extremes.sort(key=lambda e: e["datetime"])`. -/
def evLe (a b : Ev) : Prop :=
  a.datetime ≤ b.datetime

instance : DecidableRel evLe :=
  fun a b => inferInstanceAs (Decidable (a.datetime ≤ b.datetime))

instance : IsTotal Ev evLe :=
  ⟨fun a b => le_total a.datetime b.datetime⟩

instance : IsTrans Ev evLe :=
  ⟨fun _ _ _ hab hbc => le_trans hab hbc⟩

/-- Offset parameters of `find_extremes`: `timedelta(minutes=...)` in
seconds for a subordinate station, zero otherwise. -/
def offTimeHW : Option StationOffset → ℚ
  | some o => 60 * o.time_hw_min
  | none => 0

def offTimeLW : Option StationOffset → ℚ
  | some o => 60 * o.time_lw_min
  | none => 0

def offHeightHW : Option StationOffset → ℚ
  | some o => o.height_hw_m
  | none => 0

def offHeightLW : Option StationOffset → ℚ
  | some o => o.height_lw_m
  | none => 0

/-- `TideCalculator.find_extremes`: 6-minute scan with buffer, strict
three-point extremum detection, parabolic refinement, day filtering,
subordinate offsets, and a stable sort by datetime. A `none` result is a
raised `KeyError` (unknown base location, or the dead `"newquay"` lookup
during refinement). -/
def find_extremes (c : TideCalc) (loc : String) (t : ℚ) : Option (List Ev) :=
  (c.locs (baseLocOf c loc)).bind (fun base =>
    Option.map (fun evs => List.insertionSort evLe evs)
      (detectLoop c (dayStart t)
        (offTimeHW (offsetsOf c loc)) (offHeightHW (offsetsOf c loc))
        (offTimeLW (offsetsOf c loc)) (offHeightLW (offsetsOf c loc))
        (gridTimes t) (heightsFor base (gridTimes t))
        (List.range' 1 ((heightsFor base (gridTimes t)).length - 2))))

/-- The hourly-levels persistence filter of `CacheBuilder.build_cache`:
`if h_dt.date() == current`, keeping only samples whose calendar day
index equals the target day `d`. -/
def buildHourlyRows (c : TideCalc) (loc : String) (d : ℤ) : Option (List (ℚ × ℚ)) :=
  (hourly_heights c loc (86400 * (d : ℚ))).map
    (fun l => l.filter (fun s => decide (⌊s.1 / 86400⌋ = d)))

/-- One parsed forecast entry of the scraper
(`{"datetime_utc": ..., "type": ..., "height": ...}`). -/
structure Forecast where
  datetime_utc : String
  type : String
  height : ℚ
deriving DecidableEq

/-- One row of the `predictions` table
(location, datetime_utc, type, height_metres). -/
structure Row where
  location : String
  datetime_utc : String
  type : String
  height_metres : ℚ
deriving DecidableEq

/-- `SCRAPE_SLUGS` of `tide_scraper.py`: location identifier to
tidetimes.co.uk URL slug, in dictionary (insertion) order. -/
def SCRAPE_SLUGS : List (String × String) :=
  [("newquay", "newquay"), ("holywell", "newquay"),
   ("polzeath", "padstow"), ("port_isaac", "port-isaac")]

/-- Python `round(x, 2)`: scale by 100 and round half to even. -/
def round2 (x : ℚ) : ℚ :=
  let y := x * 100
  let f : ℤ := ⌊y⌋
  let frac := y - f
  let n : ℤ :=
    if frac < 1 / 2 then f
    else if 1 / 2 < frac then f + 1
    else if f % 2 = 0 then f else f + 1
  (n : ℚ) / 100

/-- `DELETE FROM predictions WHERE location = ? AND datetime_utc LIKE ?`
with the pattern `d%` for a 10-character date `d`. -/
def deleteDay (db : List Row) (loc day : String) : List Row :=
  db.filter (fun r => ! (r.location == loc && r.datetime_utc.startsWith day))

/-- `INSERT OR REPLACE INTO predictions ...`: the conflicting row under
the unique key (location, datetime_utc, type) is replaced. -/
def insertOrReplace (db : List Row) (r : Row) : List Row :=
  db.filter (fun x =>
    ! (x.location == r.location && x.datetime_utc == r.datetime_utc && x.type == r.type))
    ++ [r]

/-- `dates_covered`: the set of `f["datetime_utc"][:10]` prefixes of the
parsed forecasts (a Python set; deletes per date commute, so the
first-occurrence order is an adequate embedding of set iteration). -/
def datesCovered (fs : List Forecast) : List String :=
  (fs.map (fun f => f.datetime_utc.take 10)).dedup

/-- The per-location database work of the overlay loop body: delete all
predictions of `loc` on every covered date, then insert every parsed
forecast row (heights rounded to 2 decimals). -/
def overlayLoc (db : List Row) (loc : String) (fs : List Forecast) : List Row :=
  let db1 := (datesCovered fs).foldl (fun d day => deleteDay d loc day) db
  fs.foldl (fun d f => insertOrReplace d (Row.mk loc f.datetime_utc f.type (round2 f.height))) db1

/-- Mutable state of the `scrape_and_overlay` pass: the `slug_cache`
dictionary, the predictions table, and the log of actual fetch attempts
(one entry per `_fetch_page` call, in order). -/
structure ScrapeState where
  cache : List (String × List Forecast)
  db : List Row
  attempts : List String
deriving DecidableEq

/-- `slug in slug_cache` / `slug_cache[slug]` lookup. -/
def lookupSlug (cache : List (String × List Forecast)) (slug : String) : Option (List Forecast) :=
  match cache.find? (fun p => p.1 == slug) with
  | some p => some p.2
  | none => none

/-- One iteration of `for location, slug in SCRAPE_SLUGS.items()`. The
combined fetch-and-parse outcome for a slug is the oracle `fetchParse`:
`none` is a failed `_fetch_page`, `some []` is a fetched page from which
`_parse_forecasts` extracts nothing; both skip the location without
caching. Only a successful non-empty parse is cached and overlaid. -/
def scrapeStep (fetchParse : String → Option (List Forecast))
    (st : ScrapeState) (p : String × String) : ScrapeState :=
  match lookupSlug st.cache p.2 with
  | some fs => ScrapeState.mk st.cache (overlayLoc st.db p.1 fs) st.attempts
  | none =>
    match fetchParse p.2 with
    | none => ScrapeState.mk st.cache st.db (st.attempts ++ [p.2])
    | some [] => ScrapeState.mk st.cache st.db (st.attempts ++ [p.2])
    | some fs =>
      ScrapeState.mk (st.cache ++ [(p.2, fs)]) (overlayLoc st.db p.1 fs)
        (st.attempts ++ [p.2])

/-- `scrape_and_overlay` over an initial predictions table `db0`, for a
given fetch-and-parse oracle. -/
def scrape_and_overlay (fetchParse : String → Option (List Forecast))
    (db0 : List Row) : ScrapeState :=
  SCRAPE_SLUGS.foldl (scrapeStep fetchParse) (ScrapeState.mk [] db0 [])

/-- The stored predictions of one location: the rows of the table whose
location column equals `loc`. -/
def rowsFor (loc : String) (db : List Row) : List Row :=
  db.filter (fun r => r.location == loc)

/-- One raw entry of the embedded `tt.forecast` JSON array, as read by
`_parse_forecasts` (`None` fields are absent keys or JSON nulls). -/
structure RawForecast where
  forecast_at : Option String
  tide_height : Option ℚ
  tide_type : Option String

/-- The four `strptime` format strings tried by `_parse_forecasts`. -/
def STRPTIME_FORMATS : List String :=
  ["%Y-%m-%dT%H:%M:%S", "%Y-%m-%dT%H:%M", "%Y-%m-%d %H:%M:%S", "%Y-%m-%d %H:%M"]

/-- The `for fmt in (...)` loop: first format for which
`datetime.strptime(dt_str[:19], fmt)` succeeds, with `strp` the
abstracted standard-library parser (string, then format). -/
def firstParse (strp : String → String → Option ℚ) (s : String) : Option ℚ :=
  STRPTIME_FORMATS.findSome? (fun fmt => strp s fmt)

/-- The body of the per-entry loop of `_parse_forecasts`: `none` when the
entry is skipped (missing or falsy field, or no format parses), otherwise
the produced result row. `ukToUtc` abstracts the Europe/London to UTC
conversion and `fmtUtc` the final `strftime`. -/
def entryResult (strp : String → String → Option ℚ) (ukToUtc : ℚ → ℚ)
    (fmtUtc : ℚ → String) (f : RawForecast) : Option Forecast :=
  match f.forecast_at, f.tide_height, f.tide_type with
  | some ds, some h, some ty =>
    if ds = "" ∨ ty = "" then none
    else
      match firstParse strp (ds.take 19) with
      | none => none
      | some dtLocal =>
        some (Forecast.mk (fmtUtc (ukToUtc dtLocal))
          (if ty = "HW" then "high" else "low") h)
  | _, _, _ => none

/-- `_parse_forecasts` applied to the decoded `forecasts` array: the
`results` list accumulated by the loop. -/
def parseForecasts (strp : String → String → Option ℚ) (ukToUtc : ℚ → ℚ)
    (fmtUtc : ℚ → String) (fs : List RawForecast) : List Forecast :=
  fs.foldl (fun acc f =>
    match entryResult strp ukToUtc fmtUtc f with
    | some r => acc ++ [r]
    | none => acc) []

/-! ### Characterization of the sampling grid -/

theorem scanGrid_of_not_le (stop t : ℚ) (h : ¬ t ≤ stop) : scanGrid stop t = [] := by
  rw [scanGrid, dif_neg h]

/-- The 6-minute `while` loop produces the arithmetic progression from its
start time, with `⌊(stop - t) / 360⌋ + 1` samples. -/
theorem scanGrid_eq_map (stop : ℚ) :
    ∀ (k : ℕ) (t : ℚ), t ≤ stop → ⌊(stop - t) / 360⌋ = (k : ℤ) →
      scanGrid stop t = (List.range (k + 1)).map (fun i : ℕ => t + 360 * (i : ℚ)) := by
  intro k
  induction k with
  | zero =>
    intro t ht hfl
    rw [scanGrid, dif_pos ht]
    have h1 : (stop - t) / 360 < 1 := by
      have h2 := Int.lt_floor_add_one ((stop - t) / 360)
      rw [hfl] at h2
      push_cast at h2
      linarith
    have hstop : ¬ t + 360 ≤ stop := by
      rw [div_lt_iff₀ (by norm_num : (0:ℚ) < 360)] at h1
      intro hc
      linarith
    rw [scanGrid_of_not_le _ _ hstop]
    simp [List.range_succ]
  | succ k ih =>
    intro t ht hfl
    have hge : (360 : ℚ) ≤ stop - t := by
      have h1 : (1 : ℤ) ≤ ⌊(stop - t) / 360⌋ := by
        rw [hfl]
        exact_mod_cast Nat.succ_le_succ (Nat.zero_le k)
      have h2 : (1 : ℚ) ≤ (stop - t) / 360 := by
        have h3 := Int.le_floor.1 h1
        push_cast at h3
        linarith
      rw [le_div_iff₀ (by norm_num : (0:ℚ) < 360)] at h2
      linarith
    have ht2 : t + 360 ≤ stop := by linarith
    have hfl2 : ⌊(stop - (t + 360)) / 360⌋ = (k : ℤ) := by
      have heq : (stop - (t + 360)) / 360 = (stop - t) / 360 - 1 := by ring
      rw [heq, Int.floor_sub_one, hfl]
      push_cast
      ring
    rw [scanGrid, dif_pos ht, ih (t + 360) ht2 hfl2, List.range_succ_eq_map (k + 1),
      List.map_cons, List.map_map]
    congr 1
    · norm_num
    · refine List.map_congr_left ?_
      intro i _
      simp only [Function.comp_apply]
      push_cast
      ring

/-- Closed form of the `find_extremes` sampling grid: 261 points spaced
360 seconds apart, from one hour before midnight to 25 hours after. -/
theorem gridTimes_eq (t : ℚ) :
    gridTimes t = (List.range 261).map (fun i : ℕ => dayStart t - 3600 + 360 * (i : ℚ)) := by
  have h1 : dayStart t - 3600 ≤ dayStart t - 3600 + 26 * 3600 := by linarith
  have h2 : ⌊((dayStart t - 3600 + 26 * 3600) - (dayStart t - 3600)) / 360⌋ = ((260 : ℕ) : ℤ) := by
    have heq : ((dayStart t - 3600 + 26 * 3600) - (dayStart t - 3600)) / 360 = (260 : ℚ) := by
      ring
    rw [heq]
    push_cast
    exact Int.floor_intCast 260
  exact scanGrid_eq_map _ 260 _ h1 h2

/-! ### Stability lemmas for the datetime sort -/

theorem orderedInsert_eq_cons {l : List Ev} {x : Ev} (h : ∀ y ∈ l, evLe x y) :
    l.orderedInsert evLe x = x :: l := by
  cases l with
  | nil => rfl
  | cons y l => rw [List.orderedInsert, if_pos (h y (List.mem_cons_self y l))]

theorem filter_orderedInsert (p : Ev → Bool) (x : Ev) :
    ∀ l : List Ev, l.Sorted evLe →
      (l.orderedInsert evLe x).filter p =
        if p x then (l.filter p).orderedInsert evLe x else l.filter p := by
  intro l
  induction l with
  | nil =>
    intro _
    cases hp : p x <;> simp [List.orderedInsert, hp]
  | cons y l ih =>
    intro hs
    rcases List.sorted_cons.1 hs with ⟨hy, hs2⟩
    by_cases hxy : evLe x y
    · rw [List.orderedInsert, if_pos hxy]
      cases hp : p x with
      | true =>
        have hall : ∀ z ∈ (y :: l).filter p, evLe x z := by
          intro z hz
          have hz2 : z ∈ y :: l := List.mem_of_mem_filter hz
          rcases List.mem_cons.1 hz2 with h1 | h2
          · exact h1 ▸ hxy
          · exact le_trans hxy (hy z h2)
        rw [orderedInsert_eq_cons hall] at *
        simp [List.filter_cons, hp]
      | false =>
        simp [List.filter_cons, hp]
    · rw [List.orderedInsert, if_neg hxy]
      cases hp : p x with
      | true =>
        cases hpy : p y with
        | true =>
          simp only [List.filter_cons, hpy, hp, cond_true, if_true]
          rw [List.orderedInsert, if_neg hxy]
          have := ih hs2
          rw [if_pos hp] at this
          simp [List.filter_cons, hpy, this]
        | false =>
          simp only [List.filter_cons, hpy, hp, cond_false, if_true]
          have := ih hs2
          rw [if_pos hp] at this
          simp [List.filter_cons, hpy, this]
      | false =>
        cases hpy : p y with
        | true =>
          have := ih hs2
          rw [if_neg (by simp [hp])] at this
          simp [List.filter_cons, hpy, hp, this]
        | false =>
          have := ih hs2
          rw [if_neg (by simp [hp])] at this
          simp [List.filter_cons, hpy, hp, this]

/-- Filtering commutes with the stable sort: sorting then filtering gives
the same list as filtering then sorting. -/
theorem filter_insertionSort (p : Ev → Bool) :
    ∀ l : List Ev, (l.insertionSort evLe).filter p = (l.filter p).insertionSort evLe := by
  intro l
  induction l with
  | nil => rfl
  | cons x l ih =>
    rw [List.insertionSort,
      filter_orderedInsert p x _ (List.sorted_insertionSort evLe l), ih]
    cases hp : p x with
    | true => simp [List.filter_cons, hp, List.insertionSort]
    | false => simp [List.filter_cons, hp, List.insertionSort]


/-! ### Lemmas about the detection loop -/

/-- Applying the type-appropriate subordinate offsets to one event. -/
def shiftEv (tHW hHW tLW hLW : ℚ) (e : Ev) : Ev :=
  if e.type = "high" then Ev.mk (e.datetime + tHW) (e.height + hHW) e.type
  else Ev.mk (e.datetime + tLW) (e.height + hLW) e.type

theorem shiftEv_type (tHW hHW tLW hLW : ℚ) (e : Ev) :
    (shiftEv tHW hHW tLW hLW e).type = e.type := by
  unfold shiftEv
  split_ifs <;> rfl

/-- The candidate set, refinement, and day filter of the detection loop do
not depend on the subordinate offsets: the run with offsets is the run
with zero offsets with the type-appropriate shift applied to each kept
event. -/
theorem detectLoop_shift (c : TideCalc) (dayS tHW hHW tLW hLW : ℚ)
    (times heights : List ℚ) :
    ∀ is : List ℕ,
      detectLoop c dayS tHW hHW tLW hLW times heights is =
        Option.map (List.map (shiftEv tHW hHW tLW hLW))
          (detectLoop c dayS 0 0 0 0 times heights is) := by
  intro is
  induction is with
  | nil => rfl
  | cons j is ih =>
    rw [detectLoop, detectLoop]
    by_cases hhi : heights.getD j 0 > heights.getD (j - 1) 0 ∧
        heights.getD j 0 > heights.getD (j + 1) 0
    · rw [if_pos hhi, if_pos hhi]
      cases href : refineExtreme c times heights j with
      | none => rfl
      | some rr =>
        rw [ih]
        cases hrec : detectLoop c dayS 0 0 0 0 times heights is with
        | none => rfl
        | some rest =>
          by_cases hwin : dayS ≤ rr.1 ∧ rr.1 < dayS + 86400
          · simp [candEvents, hwin, shiftEv]
          · simp [candEvents, hwin]
    · rw [if_neg hhi, if_neg hhi]
      by_cases hlo : heights.getD j 0 < heights.getD (j - 1) 0 ∧
          heights.getD j 0 < heights.getD (j + 1) 0
      · rw [if_pos hlo, if_pos hlo]
        cases href : refineExtreme c times heights j with
        | none => rfl
        | some rr =>
          rw [ih]
          cases hrec : detectLoop c dayS 0 0 0 0 times heights is with
          | none => rfl
          | some rest =>
            by_cases hwin : dayS ≤ rr.1 ∧ rr.1 < dayS + 86400
            · simp [candEvents, hwin, shiftEv]
            · simp [candEvents, hwin]
      · rw [if_neg hlo, if_neg hlo]
        exact ih

theorem refineExtreme_isSome (c : TideCalc) (times heights : List ℚ) (idx : ℕ)
    (hq : ∀ q : ℚ, (height_at c "newquay" q).isSome) :
    (refineExtreme c times heights idx).isSome := by
  rw [refineExtreme]
  split_ifs with h1 h2
  · rfl
  · rfl
  · obtain ⟨v, hv⟩ := Option.isSome_iff_exists.1 (hq _)
    rw [hv]
    rfl

/-- When the dead `"newquay"` re-evaluation cannot fail, the detection
loop never fails. -/
theorem detectLoop_isSome (c : TideCalc) (dayS tHW hHW tLW hLW : ℚ)
    (times heights : List ℚ)
    (hq : ∀ q : ℚ, (height_at c "newquay" q).isSome) :
    ∀ is : List ℕ,
      (detectLoop c dayS tHW hHW tLW hLW times heights is).isSome := by
  intro is
  induction is with
  | nil => rfl
  | cons j is ih =>
    rw [detectLoop]
    obtain ⟨rest, hrest⟩ := Option.isSome_iff_exists.1 ih
    obtain ⟨rr, hrr⟩ := Option.isSome_iff_exists.1 (refineExtreme_isSome c times heights j hq)
    by_cases hhi : heights.getD j 0 > heights.getD (j - 1) 0 ∧
        heights.getD j 0 > heights.getD (j + 1) 0
    · rw [if_pos hhi, hrr, hrest]
      rfl
    · rw [if_neg hhi]
      by_cases hlo : heights.getD j 0 < heights.getD (j - 1) 0 ∧
          heights.getD j 0 < heights.getD (j + 1) 0
      · rw [if_pos hlo, hrr, hrest]
        rfl
      · rw [if_neg hlo]
        exact ih

/-- Without a strict three-point candidate at any visited index, the
detection loop produces the empty list (and cannot fail, since
refinement is never reached). -/
theorem detectLoop_of_no_candidates (c : TideCalc) (dayS tHW hHW tLW hLW : ℚ)
    (times heights : List ℚ) :
    ∀ is : List ℕ,
      (∀ j ∈ is,
        ¬ (heights.getD j 0 > heights.getD (j - 1) 0 ∧
            heights.getD j 0 > heights.getD (j + 1) 0) ∧
        ¬ (heights.getD j 0 < heights.getD (j - 1) 0 ∧
            heights.getD j 0 < heights.getD (j + 1) 0)) →
      detectLoop c dayS tHW hHW tLW hLW times heights is = some [] := by
  intro is
  induction is with
  | nil => intro _; rfl
  | cons j is ih =>
    intro hall
    rcases hall j (List.mem_cons_self j is) with ⟨hhi, hlo⟩
    rw [detectLoop, if_neg hhi, if_neg hlo]
    exact ih (fun x hx => hall x (List.mem_cons_of_mem j hx))

/-! ### Equations for full `find_extremes` runs -/

theorem height_at_newquay_isSome (c : TideCalc) (nq : LocData)
    (hnq : c.locs "newquay" = some nq) (hno : nq.offsets = none) :
    ∀ q : ℚ, (height_at c "newquay" q).isSome := by
  intro q
  simp [height_at, baseLocOf, offsetsOf, hnq, hno]

/-- Run of `find_extremes` for a subordinate station: the base data are
newquay's, and the offsets are the station's own. -/
theorem find_extremes_sub_run (c : TideCalc) (loc : String) (o : StationOffset)
    (nq : LocData) (hoff : offsetsOf c loc = some o)
    (hnq : c.locs "newquay" = some nq) (u : ℚ) :
    find_extremes c loc u =
      Option.map (fun evs => List.insertionSort evLe evs)
        (detectLoop c (dayStart u) (60 * o.time_hw_min) o.height_hw_m
          (60 * o.time_lw_min) o.height_lw_m (gridTimes u)
          (heightsFor nq (gridTimes u))
          (List.range' 1 ((heightsFor nq (gridTimes u)).length - 2))) := by
  have hb : baseLocOf c loc = "newquay" := by rw [baseLocOf, hoff]; rfl
  rw [find_extremes, hb, hnq, hoff, Option.some_bind, offTimeHW, offTimeLW,
    offHeightHW, offHeightLW]

/-- Run of `find_extremes` for a station without offsets: zero offsets
and the station's own data. -/
theorem find_extremes_ref_run (c : TideCalc) (loc : String)
    (ld : LocData) (hoff : offsetsOf c loc = none)
    (hloc : c.locs loc = some ld) (u : ℚ) :
    find_extremes c loc u =
      Option.map (fun evs => List.insertionSort evLe evs)
        (detectLoop c (dayStart u) 0 0 0 0 (gridTimes u)
          (heightsFor ld (gridTimes u))
          (List.range' 1 ((heightsFor ld (gridTimes u)).length - 2))) := by
  have hb : baseLocOf c loc = loc := by rw [baseLocOf, hoff]; rfl
  rw [find_extremes, hb, hloc, hoff, Option.some_bind, offTimeHW, offTimeLW,
    offHeightHW, offHeightLW]

/-- The joint run of a subordinate station and its reference: both
succeed, over the same zero-offset event list. -/
theorem find_extremes_sub (c : TideCalc) (loc : String) (dep nq : LocData) (o : StationOffset)
    (hdep : c.locs loc = some dep) (hdo : dep.offsets = some o)
    (hnq : c.locs "newquay" = some nq) (hno : nq.offsets = none) (u : ℚ) :
    ∃ evs0 : List Ev,
      find_extremes c "newquay" u = some (List.insertionSort evLe evs0) ∧
      find_extremes c loc u =
        some (List.insertionSort evLe (List.map
          (shiftEv (60 * o.time_hw_min) o.height_hw_m (60 * o.time_lw_min) o.height_lw_m)
          evs0)) := by
  have hoffd : offsetsOf c loc = some o := by simp [offsetsOf, hdep, hdo]
  have hoffn : offsetsOf c "newquay" = none := by simp [offsetsOf, hnq, hno]
  have hq := height_at_newquay_isSome c nq hnq hno
  obtain ⟨evs0, hevs0⟩ := Option.isSome_iff_exists.1
    (detectLoop_isSome c (dayStart u) 0 0 0 0 (gridTimes u)
      (heightsFor nq (gridTimes u)) hq
      (List.range' 1 ((heightsFor nq (gridTimes u)).length - 2)))
  refine ⟨evs0, ?_, ?_⟩
  · rw [find_extremes_ref_run c "newquay" nq hoffn hnq u, hevs0]
    rfl
  · rw [find_extremes_sub_run c loc o nq hoffd hnq u, detectLoop_shift, hevs0]
    rfl

/-! ### Per-type extraction from a sorted, shifted run -/

/-- Filtering one event type out of the sorted shifted run equals the
same filter on the sorted unshifted run with a constant time/height
shift applied to each event. -/
theorem filter_sort_shift (tHW hHW tLW hLW tOff hOff : ℚ) (ty : String) (evs0 : List Ev)
    (hsh : ∀ e : Ev, e.type = ty →
      shiftEv tHW hHW tLW hLW e = Ev.mk (e.datetime + tOff) (e.height + hOff) e.type) :
    (List.insertionSort evLe (List.map (shiftEv tHW hHW tLW hLW) evs0)).filter
        (fun e => e.type == ty) =
      ((List.insertionSort evLe evs0).filter (fun e => e.type == ty)).map
        (fun e => Ev.mk (e.datetime + tOff) (e.height + hOff) e.type) := by
  rw [filter_insertionSort]
  have hcomp : ((List.map (shiftEv tHW hHW tLW hLW) evs0).filter (fun e => e.type == ty)) =
      (evs0.filter (fun e => e.type == ty)).map (shiftEv tHW hHW tLW hLW) := by
    rw [List.filter_map]
    refine congrArg (List.map (shiftEv tHW hHW tLW hLW)) (List.filter_congr ?_)
    intro e _
    simp [Function.comp, shiftEv_type]
  rw [hcomp]
  have hmapeq : (evs0.filter (fun e => e.type == ty)).map (shiftEv tHW hHW tLW hLW) =
      (evs0.filter (fun e => e.type == ty)).map
        (fun e => Ev.mk (e.datetime + tOff) (e.height + hOff) e.type) := by
    refine List.map_congr_left ?_
    intro e he
    have hty : e.type = ty := by
      have := List.of_mem_filter he
      exact eq_of_beq this
    exact hsh e hty
  rw [hmapeq]
  have hl : ∀ a ∈ evs0.filter (fun e => e.type == ty),
      ∀ b ∈ evs0.filter (fun e => e.type == ty), evLe a b ↔
        evLe (Ev.mk (a.datetime + tOff) (a.height + hOff) a.type)
          (Ev.mk (b.datetime + tOff) (b.height + hOff) b.type) := by
    intro a _ b _
    constructor
    · intro h
      exact add_le_add_right h tOff
    · intro h
      exact le_of_add_le_add_right h
  rw [← List.map_insertionSort evLe evLe _ _ hl, ← filter_insertionSort]

/-! ### Lemmas about the predictions table and the overlay pass -/

theorem rowsFor_filter (loc : String) (p : Row → Bool) (db : List Row)
    (h : ∀ r : Row, r.location = loc → p r = true) :
    rowsFor loc (db.filter p) = rowsFor loc db := by
  rw [rowsFor, rowsFor, List.filter_filter]
  refine List.filter_congr ?_
  intro r _
  cases hbeq : (r.location == loc) with
  | true =>
    have hp : p r = true := h r (eq_of_beq hbeq)
    simp [hp]
  | false => simp

theorem rowsFor_deleteDay (loc loc2 day : String) (db : List Row) (h : loc2 ≠ loc) :
    rowsFor loc (deleteDay db loc2 day) = rowsFor loc db := by
  refine rowsFor_filter loc _ db ?_
  intro r hr
  have hb : (r.location == loc2) = false := by
    refine beq_eq_false_iff_ne.2 ?_
    rw [hr]
    exact fun hc => h hc.symm
  simp [hb]

theorem rowsFor_insertOrReplace (loc : String) (row : Row) (db : List Row)
    (h : row.location ≠ loc) :
    rowsFor loc (insertOrReplace db row) = rowsFor loc db := by
  rw [insertOrReplace, rowsFor, List.filter_append]
  have h1 : List.filter (fun r : Row => r.location == loc) [row] = [] := by
    simp [h]
  rw [h1, List.append_nil]
  refine rowsFor_filter loc _ db ?_
  intro r hr
  have hb : (r.location == row.location) = false := by
    refine beq_eq_false_iff_ne.2 ?_
    rw [hr]
    exact fun hc => h hc.symm
  simp [hb]

theorem rowsFor_overlayLoc (loc loc2 : String) (fs : List Forecast) (db : List Row)
    (h : loc2 ≠ loc) :
    rowsFor loc (overlayLoc db loc2 fs) = rowsFor loc db := by
  rw [overlayLoc]
  have hins : ∀ (gs : List Forecast) (d0 : List Row),
      rowsFor loc (gs.foldl (fun d f =>
        insertOrReplace d (Row.mk loc2 f.datetime_utc f.type (round2 f.height))) d0) =
        rowsFor loc d0 := by
    intro gs
    induction gs with
    | nil => intro d0; rfl
    | cons f gs ih =>
      intro d0
      rw [List.foldl_cons, ih, rowsFor_insertOrReplace loc _ d0 h]
  have hdel : ∀ (ds : List String) (d0 : List Row),
      rowsFor loc (ds.foldl (fun d day => deleteDay d loc2 day) d0) = rowsFor loc d0 := by
    intro ds
    induction ds with
    | nil => intro d0; rfl
    | cons a ds ih =>
      intro d0
      rw [List.foldl_cons, ih, rowsFor_deleteDay loc loc2 a d0 h]
  rw [hins, hdel]

theorem lookupSlug_mem (cache : List (String × List Forecast)) (slug : String)
    (fs : List Forecast) (h : lookupSlug cache slug = some fs) : (slug, fs) ∈ cache := by
  rw [lookupSlug] at h
  cases hf : cache.find? (fun p => p.1 == slug) with
  | none => rw [hf] at h; cases h
  | some p =>
    rw [hf] at h
    have hp2 : p.2 = fs := by
      injection h
    have hmem := List.mem_of_find?_eq_some hf
    have hpred := List.find?_some hf
    have hp1 : p.1 = slug := eq_of_beq hpred
    have : p = (slug, fs) := by
      cases p
      simp_all
    exact this ▸ hmem

/-- The per-location rows of a location whose every entry in the slug
table maps to a failing source identifier are unchanged by the fold. -/
theorem scrape_fold_rows (fetchParse : String → Option (List Forecast)) (loc : String) :
    ∀ (L : List (String × String)) (st : ScrapeState),
      (∀ q ∈ st.cache, fetchParse q.1 = some q.2 ∧ q.2 ≠ []) →
      (∀ q ∈ L, q.1 = loc → (fetchParse q.2 = none ∨ fetchParse q.2 = some [])) →
      rowsFor loc (L.foldl (scrapeStep fetchParse) st).db = rowsFor loc st.db := by
  intro L
  induction L with
  | nil => intro st _ _; rfl
  | cons q L ih =>
    intro st hcache hfail
    rw [List.foldl_cons]
    have htail : ∀ q2 ∈ L, q2.1 = loc → (fetchParse q2.2 = none ∨ fetchParse q2.2 = some []) :=
      fun q2 hq2 => hfail q2 (List.mem_cons_of_mem q hq2)
    by_cases hloc : q.1 = loc
    · rcases hfail q (List.mem_cons_self q L) hloc with hf | hf
      · have hnot : lookupSlug st.cache q.2 = none := by
          cases hlk : lookupSlug st.cache q.2 with
          | none => rfl
          | some fs =>
            exfalso
            rcases hcache _ (lookupSlug_mem _ _ _ hlk) with ⟨hfp, _⟩
            rw [hf] at hfp
            cases hfp
        simp only [scrapeStep, hnot, hf]
        exact ih _ hcache htail
      · have hnot : lookupSlug st.cache q.2 = none := by
          cases hlk : lookupSlug st.cache q.2 with
          | none => rfl
          | some fs =>
            exfalso
            rcases hcache _ (lookupSlug_mem _ _ _ hlk) with ⟨hfp, hne⟩
            rw [hf] at hfp
            injection hfp with hfp2
            exact hne hfp2.symm
        simp only [scrapeStep, hnot, hf]
        exact ih _ hcache htail
    · cases hlk : lookupSlug st.cache q.2 with
      | some fs =>
        simp only [scrapeStep, hlk]
        rw [ih (ScrapeState.mk st.cache (overlayLoc st.db q.1 fs) st.attempts) hcache htail]
        exact rowsFor_overlayLoc loc q.1 fs st.db hloc
      | none =>
        cases hf : fetchParse q.2 with
        | none =>
          simp only [scrapeStep, hlk, hf]
          exact ih _ hcache htail
        | some fs =>
          cases fs with
          | nil =>
            simp only [scrapeStep, hlk, hf]
            exact ih _ hcache htail
          | cons f fs2 =>
            simp only [scrapeStep, hlk, hf]
            have hcache2 : ∀ p ∈ st.cache ++ [(q.2, f :: fs2)],
                fetchParse p.1 = some p.2 ∧ p.2 ≠ [] := by
              intro p hp
              rcases List.mem_append.1 hp with hp1 | hp2
              · exact hcache p hp1
              · rcases List.mem_singleton.1 hp2 with rfl
                exact ⟨hf, by simp⟩
            rw [ih (ScrapeState.mk (st.cache ++ [(q.2, f :: fs2)])
              (overlayLoc st.db q.1 (f :: fs2)) (st.attempts ++ [q.2])) hcache2 htail]
            exact rowsFor_overlayLoc loc q.1 (f :: fs2) st.db hloc

theorem count_append_singleton_ne (l : List String) (a b : String) (h : a ≠ b) :
    (l ++ [a]).count b = l.count b := by
  rw [List.count_append]
  simp [List.count_cons, beq_eq_false_iff_ne.2 h]

theorem count_append_singleton_eq (l : List String) (b : String) :
    (l ++ [b]).count b = l.count b + 1 := by
  rw [List.count_append]
  simp

theorem lookupSlug_append_some (c1 c2 : List (String × List Forecast)) (slug : String)
    (fs : List Forecast) (h : lookupSlug c1 slug = some fs) :
    lookupSlug (c1 ++ c2) slug = some fs := by
  rw [lookupSlug] at h ⊢
  rw [List.find?_append]
  cases hf : c1.find? (fun p => p.1 == slug) with
  | none => rw [hf] at h; cases h
  | some p =>
    rw [hf] at h
    have h2 : p.2 = fs := Option.some.inj h
    simp [h2]

theorem lookupSlug_append_self (c1 : List (String × List Forecast)) (slug : String)
    (fs : List Forecast) (h : lookupSlug c1 slug = none) :
    lookupSlug (c1 ++ [(slug, fs)]) slug = some fs := by
  rw [lookupSlug] at h ⊢
  rw [List.find?_append]
  cases hf : c1.find? (fun p => p.1 == slug) with
  | none => simp
  | some p => rw [hf] at h; cases h

/-- Once a slug has a successful, non-empty fetch-and-parse result, the
pass attempts to fetch it at most once: the first attempt caches it, and
every later location mapped to it hits the cache. -/
theorem scrape_count_le_one (fetchParse : String → Option (List Forecast)) (slug : String)
    (fs : List Forecast) (hfp : fetchParse slug = some fs) (hne : fs ≠ []) :
    ∀ (L : List (String × String)) (st : ScrapeState),
      st.attempts.count slug ≤ 1 →
      (st.attempts.count slug = 1 → (lookupSlug st.cache slug).isSome) →
      (L.foldl (scrapeStep fetchParse) st).attempts.count slug ≤ 1 := by
  intro L
  induction L with
  | nil => intro st h1 _; exact h1
  | cons q L ih =>
    intro st h1 h2
    rw [List.foldl_cons]
    cases hlk : lookupSlug st.cache q.2 with
    | some fs2 =>
      simp only [scrapeStep, hlk]
      exact ih _ h1 h2
    | none =>
      by_cases hq : q.2 = slug
      · have hc0 : st.attempts.count slug = 0 := by
          by_cases hc1 : st.attempts.count slug = 1
          · exfalso
            have hs := h2 hc1
            rw [hq] at hlk
            rw [hlk] at hs
            cases hs
          · omega
        cases fs with
        | nil => exact absurd rfl hne
        | cons f ftl =>
          have hfq : fetchParse q.2 = some (f :: ftl) := by rw [hq, hfp]
          simp only [scrapeStep, hlk, hfq]
          refine ih _ ?_ ?_
          · rw [hq, count_append_singleton_eq, hc0]
          · intro _
            rw [hq]
            rw [lookupSlug_append_self st.cache slug (f :: ftl) (hq ▸ hlk)]
            rfl
      · cases hf2 : fetchParse q.2 with
        | none =>
          simp only [scrapeStep, hlk, hf2]
          refine ih _ ?_ ?_
          · rw [count_append_singleton_ne _ _ _ hq]
            exact h1
          · intro hcnt
            rw [count_append_singleton_ne _ _ _ hq] at hcnt
            exact h2 hcnt
        | some fs2 =>
          cases fs2 with
          | nil =>
            simp only [scrapeStep, hlk, hf2]
            refine ih _ ?_ ?_
            · rw [count_append_singleton_ne _ _ _ hq]
              exact h1
            · intro hcnt
              rw [count_append_singleton_ne _ _ _ hq] at hcnt
              exact h2 hcnt
          | cons g gtl =>
            simp only [scrapeStep, hlk, hf2]
            refine ih _ ?_ ?_
            · rw [count_append_singleton_ne _ _ _ hq]
              exact h1
            · intro hcnt
              rw [count_append_singleton_ne _ _ _ hq] at hcnt
              obtain ⟨v, hv⟩ := Option.isSome_iff_exists.1 (h2 hcnt)
              rw [lookupSlug_append_some st.cache [(q.2, g :: gtl)] slug v hv]
              rfl

/-! ### Generic helpers for `mapM` and the parser -/

theorem mapM_eq_map {α β : Type} (f : α → Option β) (g : α → β) :
    ∀ L : List α, (∀ x ∈ L, f x = some (g x)) → L.mapM f = some (L.map g) := by
  intro L
  induction L with
  | nil => intro _; rfl
  | cons a L ih =>
    intro h
    rw [List.mapM_cons, h a (List.mem_cons_self a L), ih (fun x hx => h x (List.mem_cons_of_mem a hx))]
    rfl

theorem mapM_cons_none {α β : Type} (f : α → Option β) (a : α) (L : List α)
    (h : f a = none) : (a :: L).mapM f = none := by
  rw [List.mapM_cons, h]
  rfl

theorem parseForecasts_eq_filterMap (strp : String → String → Option ℚ) (ukToUtc : ℚ → ℚ)
    (fmtUtc : ℚ → String) (fs : List RawForecast) :
    parseForecasts strp ukToUtc fmtUtc fs = fs.filterMap (entryResult strp ukToUtc fmtUtc) := by
  rw [parseForecasts]
  have key : ∀ (gs : List RawForecast) (acc : List Forecast),
      gs.foldl (fun acc f =>
        match entryResult strp ukToUtc fmtUtc f with
        | some r => acc ++ [r]
        | none => acc) acc = acc ++ gs.filterMap (entryResult strp ukToUtc fmtUtc) := by
    intro gs
    induction gs with
    | nil => intro acc; simp
    | cons f gs ih =>
      intro acc
      rw [List.foldl_cons, List.filterMap_cons]
      cases he : entryResult strp ukToUtc fmtUtc f with
      | none =>
        simp only [he]
        exact ih acc
      | some r =>
        simp only [he]
        rw [ih (acc ++ [r])]
        simp
  rw [key fs []]
  simp

/-! ### Claim theorems -/

/-- C2: for a candidate whose three-point parabolic fit passes both
degeneracy thresholds, `_refine_extreme` returns the vertex time
`-b / (2 a)` of the fitted parabola as the pre-offset event time while
keeping the raw sampled height `heights[idx]` as the pre-offset event
height; the returned height is the raw grid sample, not the parabola
value and not a re-evaluation at the refined time. The two trailing
conjuncts verify that `fitA`/`fitB` are the genuine absolute-frame
coefficients of the parabola through the three sample points, so
`-b / (2 a)` is indeed its vertex. -/
theorem C2_refine_vertex_time_raw_height (c : TideCalc) (times heights : List ℚ) (i : ℕ)
    (t0 t1 t2 h0 h1 h2 : ℚ)
    (e0 : times.getD (i - 1) 0 = t0) (e1 : times.getD i 0 = t1) (e2 : times.getD (i + 1) 0 = t2)
    (f0 : heights.getD (i - 1) 0 = h0) (f1 : heights.getD i 0 = h1)
    (f2 : heights.getD (i + 1) 0 = h2)
    (hd : ¬ |fitDenom t0 t1 t2| < 1 / 10 ^ 10)
    (ha : ¬ |fitA t0 t1 t2 h0 h1 h2| < 1 / 10 ^ 10)
    (hq : (height_at c "newquay"
      (-fitB t0 t1 t2 h0 h1 h2 / (2 * fitA t0 t1 t2 h0 h1 h2))).isSome) :
    refineExtreme c times heights i =
      some (-fitB t0 t1 t2 h0 h1 h2 / (2 * fitA t0 t1 t2 h0 h1 h2), h1) ∧
    fitA t0 t1 t2 h0 h1 h2 * t0 ^ 2 + fitB t0 t1 t2 h0 h1 h2 * t0 +
        (h1 - fitA t0 t1 t2 h0 h1 h2 * t1 ^ 2 - fitB t0 t1 t2 h0 h1 h2 * t1) = h0 ∧
    fitA t0 t1 t2 h0 h1 h2 * t2 ^ 2 + fitB t0 t1 t2 h0 h1 h2 * t2 +
        (h1 - fitA t0 t1 t2 h0 h1 h2 * t1 ^ 2 - fitB t0 t1 t2 h0 h1 h2 * t1) = h2 := by
  have hDne : fitDenom t0 t1 t2 ≠ 0 := by
    intro hc
    apply hd
    rw [hc]
    norm_num
  have hDne2 : (t0 - t1) * (t0 - t2) * (t1 - t2) ≠ 0 := by
    rw [fitDenom] at hDne
    exact hDne
  have h01 : t0 - t1 ≠ 0 := by
    intro hc
    apply hDne2
    rw [hc]
    ring
  have h02 : t0 - t2 ≠ 0 := by
    intro hc
    apply hDne2
    rw [hc]
    ring
  have h12 : t1 - t2 ≠ 0 := by
    intro hc
    apply hDne2
    rw [hc]
    ring
  refine ⟨?_, ?_, ?_⟩
  · rw [refineExtreme, e0, e1, e2, f0, f1, f2, if_neg hd, if_neg ha]
    obtain ⟨v, hv⟩ := Option.isSome_iff_exists.1 hq
    rw [hv]
    rfl
  · rw [fitA, fitB, fitDenom]
    field_simp
    ring
  · rw [fitA, fitB, fitDenom]
    field_simp
    ring

def vertexCalc : TideCalc :=
  TideCalc.mk (fun l =>
    if l = "newquay" then some (LocData.mk (fun _ => 0) 0 none) else none)

theorem C2_witness :
    refineExtreme vertexCalc [0, 360, 720] [0, 1, 0] 1 =
      some (-fitB 0 360 720 0 1 0 / (2 * fitA 0 360 720 0 1 0), 1) ∧
    fitA 0 360 720 0 1 0 * 0 ^ 2 + fitB 0 360 720 0 1 0 * 0 +
        (1 - fitA 0 360 720 0 1 0 * 360 ^ 2 - fitB 0 360 720 0 1 0 * 360) = 0 ∧
    fitA 0 360 720 0 1 0 * 720 ^ 2 + fitB 0 360 720 0 1 0 * 720 +
        (1 - fitA 0 360 720 0 1 0 * 360 ^ 2 - fitB 0 360 720 0 1 0 * 360) = 0 :=
 by
  have hd : ¬ |fitDenom 0 360 720| < 1 / 10 ^ 10 := by
    have hv : fitDenom 0 360 720 = -93312000 := by
      rw [fitDenom]
      norm_num
    rw [hv, abs_of_nonpos (by norm_num : (-93312000 : ℚ) ≤ 0)]
    norm_num
  have ha : ¬ |fitA 0 360 720 0 1 0| < 1 / 10 ^ 10 := by
    have hv : fitA 0 360 720 0 1 0 = -(1 / 129600) := by
      rw [fitA, fitDenom]
      norm_num
    rw [hv, abs_neg, abs_of_nonneg (by norm_num : (0 : ℚ) ≤ 1 / 129600)]
    norm_num
  have hq : (height_at vertexCalc "newquay"
      (-fitB 0 360 720 0 1 0 / (2 * fitA 0 360 720 0 1 0))).isSome := by
    simp [height_at, baseLocOf, offsetsOf, vertexCalc]
  exact C2_refine_vertex_time_raw_height vertexCalc [0, 360, 720] [0, 1, 0] 1
    0 360 720 0 1 0 rfl rfl rfl rfl rfl rfl hd ha hq

/-- C8: when the sampled height curve has no strict three-point local
maximum or minimum anywhere in the scan window (plateaus, with non-strict
comparisons, never qualify), `find_extremes` returns the empty list and
raises no error. -/
theorem C8_flat_curve_empty (c : TideCalc) (loc : String) (base : LocData) (t : ℚ)
    (hb : c.locs (baseLocOf c loc) = some base)
    (hflat : ∀ j : ℕ, 1 ≤ j → j + 1 < (heightsFor base (gridTimes t)).length →
      ¬ ((heightsFor base (gridTimes t)).getD j 0 >
            (heightsFor base (gridTimes t)).getD (j - 1) 0 ∧
          (heightsFor base (gridTimes t)).getD j 0 >
            (heightsFor base (gridTimes t)).getD (j + 1) 0) ∧
      ¬ ((heightsFor base (gridTimes t)).getD j 0 <
            (heightsFor base (gridTimes t)).getD (j - 1) 0 ∧
          (heightsFor base (gridTimes t)).getD j 0 <
            (heightsFor base (gridTimes t)).getD (j + 1) 0)) :
    find_extremes c loc t = some [] := by
  rw [find_extremes, hb, Option.some_bind]
  rw [detectLoop_of_no_candidates c (dayStart t) (offTimeHW (offsetsOf c loc))
    (offHeightHW (offsetsOf c loc)) (offTimeLW (offsetsOf c loc))
    (offHeightLW (offsetsOf c loc)) (gridTimes t) (heightsFor base (gridTimes t))
    (List.range' 1 ((heightsFor base (gridTimes t)).length - 2)) ?_]
  · rfl
  · intro j hj
    have hmem := List.mem_range'_1.1 hj
    exact hflat j (by omega) (by omega)

def flatCalc : TideCalc :=
  TideCalc.mk (fun l =>
    if l = "flat" then some (LocData.mk (fun _ => 0) 2 none) else none)

theorem C8_witness : find_extremes flatCalc "flat" 0 = some [] := by
  have hval : ∀ j : ℕ, j < (heightsFor (LocData.mk (fun _ => 0) 2 none) (gridTimes 0)).length →
      (heightsFor (LocData.mk (fun _ => 0) 2 none) (gridTimes 0)).getD j 0 = 2 := by
    intro j hj
    rw [heightsFor, List.length_map] at hj
    rw [heightsFor, List.getD_eq_getElem?_getD, List.getElem?_map, List.getElem?_eq_getElem hj]
    norm_num
  refine C8_flat_curve_empty flatCalc "flat" (LocData.mk (fun _ => 0) 2 none) 0 rfl ?_
  intro j h1 h2
  have hlen : (heightsFor (LocData.mk (fun _ => 0) 2 none) (gridTimes 0)).length =
      (gridTimes 0).length := by
    rw [heightsFor, List.length_map]
  have v1 := hval (j - 1) (by omega)
  have v2 := hval j (by omega)
  have v3 := hval (j + 1) (by omega)
  constructor
  · rintro ⟨hgt, _⟩
    rw [v2, v1] at hgt
    exact lt_irrefl _ hgt
  · rintro ⟨hlt, _⟩
    rw [v2, v1] at hlt
    exact lt_irrefl _ hlt

/-- C9: an unknown location identifier makes every engine operation
(`height_at`, `hourly_heights`, `find_extremes`) fail with the
`KeyError`-style lookup failure (embedded as `none`), which the caller
can catch; no operation silently returns a result. -/
theorem C9_unknown_location_fails (c : TideCalc) (loc : String) (h : c.locs loc = none)
    (t u : ℚ) :
    height_at c loc t = none ∧ hourly_heights c loc u = none ∧
      find_extremes c loc u = none := by
  have hoff : offsetsOf c loc = none := by
    rw [offsetsOf, h]
    rfl
  have hb : baseLocOf c loc = loc := by
    rw [baseLocOf, hoff]
    rfl
  have hha : ∀ q : ℚ, height_at c loc q = none := by
    intro q
    rw [height_at, hb, h]
  refine ⟨hha t, ?_, ?_⟩
  · rw [hourly_heights]
    have hr : List.range 25 = 0 :: List.range' 1 24 := by decide
    rw [hr]
    apply mapM_cons_none
    rw [hha]
    rfl
  · rw [find_extremes, hb, h]
    rfl

def emptyCalc : TideCalc :=
  TideCalc.mk (fun _ => none)

theorem C9_witness :
    height_at emptyCalc "nowhere" 0 = none ∧ hourly_heights emptyCalc "nowhere" 0 = none ∧
      find_extremes emptyCalc "nowhere" 0 = none :=
  C9_unknown_location_fails emptyCalc "nowhere" rfl 0 0

/-- C10: in `_parse_forecasts`, a well-formed entry (parseable timestamp,
height present, truthy type flag) whose `tide_type` is anything other
than the exact string `"HW"` is classified as a `"low"` event and is
never skipped because of the unrecognized flag. -/
theorem C10_non_hw_classified_low (strp : String → String → Option ℚ) (ukToUtc : ℚ → ℚ)
    (fmtUtc : ℚ → String) (l : List RawForecast) (f : RawForecast) (ds ty : String)
    (h : ℚ) (dl : ℚ) (hmem : f ∈ l) (hds : f.forecast_at = some ds) (hds2 : ds ≠ "")
    (hh : f.tide_height = some h) (hty : f.tide_type = some ty) (hty2 : ty ≠ "")
    (hparse : firstParse strp (ds.take 19) = some dl) (hnot : ty ≠ "HW") :
    entryResult strp ukToUtc fmtUtc f =
      some (Forecast.mk (fmtUtc (ukToUtc dl)) "low" h) ∧
    Forecast.mk (fmtUtc (ukToUtc dl)) "low" h ∈ parseForecasts strp ukToUtc fmtUtc l := by
  have hfalsy : ¬ (ds = "" ∨ ty = "") := by
    rintro (hc | hc)
    · exact hds2 hc
    · exact hty2 hc
  have he : entryResult strp ukToUtc fmtUtc f =
      some (Forecast.mk (fmtUtc (ukToUtc dl)) "low" h) := by
    rw [entryResult.eq_def, hds, hh, hty]
    simp only [if_neg hfalsy, hparse, if_neg hnot]
  refine ⟨he, ?_⟩
  rw [parseForecasts_eq_filterMap]
  exact List.mem_filterMap.2 ⟨f, hmem, he⟩

theorem C10_witness :
    entryResult (fun _ _ => some 7) (fun q => q + 1) (fun _ => "2026-02-03T04:05:06")
      (RawForecast.mk (some "2026-02-03T05:05:06") (some (3 / 2)) (some "LW")) =
      some (Forecast.mk "2026-02-03T04:05:06" "low" (3 / 2)) ∧
    Forecast.mk "2026-02-03T04:05:06" "low" (3 / 2) ∈
      parseForecasts (fun _ _ => some 7) (fun q => q + 1) (fun _ => "2026-02-03T04:05:06")
        [RawForecast.mk (some "2026-02-03T05:05:06") (some (3 / 2)) (some "LW")] :=
  C10_non_hw_classified_low (fun _ _ => some 7) (fun q => q + 1)
    (fun _ => "2026-02-03T04:05:06")
    [RawForecast.mk (some "2026-02-03T05:05:06") (some (3 / 2)) (some "LW")]
    (RawForecast.mk (some "2026-02-03T05:05:06") (some (3 / 2)) (some "LW"))
    "2026-02-03T05:05:06" "LW" (3 / 2) 7 (List.mem_singleton.2 rfl) rfl (by decide)
    rfl rfl (by decide) rfl (by decide)

/-- C3: for a dependent location with configured offsets, `height_at`
returns newquay's synthesis adjusted by the average of the two height
offsets, while `find_extremes` never averages: relative to the reference
run, every high event gets the high-water time/height offsets and every
low event gets the low-water ones, individually. -/
theorem C3_average_point_individual_extrema (c : TideCalc) (loc : String)
    (dep nq : LocData) (o : StationOffset)
    (hdep : c.locs loc = some dep) (hdo : dep.offsets = some o)
    (hnq : c.locs "newquay" = some nq) (hno : nq.offsets = none) (t u : ℚ) :
    height_at c loc t =
      some (nq.mean_level + nq.synth t + (o.height_hw_m / 2 + o.height_lw_m / 2)) ∧
    (find_extremes c loc u).map (fun l => l.filter (fun e => e.type == "high")) =
      (find_extremes c "newquay" u).map (fun l =>
        (l.filter (fun e => e.type == "high")).map (fun e =>
          Ev.mk (e.datetime + 60 * o.time_hw_min) (e.height + o.height_hw_m) e.type)) ∧
    (find_extremes c loc u).map (fun l => l.filter (fun e => e.type == "low")) =
      (find_extremes c "newquay" u).map (fun l =>
        (l.filter (fun e => e.type == "low")).map (fun e =>
          Ev.mk (e.datetime + 60 * o.time_lw_min) (e.height + o.height_lw_m) e.type)) := by
  have hoffd : offsetsOf c loc = some o := by
    rw [offsetsOf, hdep, Option.some_bind, hdo]
  have hb : baseLocOf c loc = "newquay" := by
    rw [baseLocOf, hoffd]
    rfl
  obtain ⟨evs0, hn, hd2⟩ := find_extremes_sub c loc dep nq o hdep hdo hnq hno u
  refine ⟨?_, ?_, ?_⟩
  · rw [height_at, hb, hnq, hoffd]
  · rw [hd2, hn, Option.map_some', Option.map_some']
    refine congrArg some ?_
    refine filter_sort_shift (60 * o.time_hw_min) o.height_hw_m (60 * o.time_lw_min)
      o.height_lw_m (60 * o.time_hw_min) o.height_hw_m "high" evs0 ?_
    intro e he
    rw [shiftEv, if_pos he]
  · rw [hd2, hn, Option.map_some', Option.map_some']
    refine congrArg some ?_
    refine filter_sort_shift (60 * o.time_hw_min) o.height_hw_m (60 * o.time_lw_min)
      o.height_lw_m (60 * o.time_lw_min) o.height_lw_m "low" evs0 ?_
    intro e he
    have hneq : ¬ e.type = "high" := by
      rw [he]
      decide
    rw [shiftEv, if_neg hneq]

def c3calc : TideCalc :=
  TideCalc.mk (fun l =>
    if l = "newquay" then some (LocData.mk (fun q => q) 10 none)
    else if l = "holywell" then
      some (LocData.mk (fun _ => 0) 0 (some (StationOffset.mk 2 3 4 5))) else none)

theorem C3_witness :
    height_at c3calc "holywell" 7 = some (10 + 7 + ((4 : ℚ) / 2 + 5 / 2)) ∧
    (find_extremes c3calc "holywell" 0).map (fun l => l.filter (fun e => e.type == "high")) =
      (find_extremes c3calc "newquay" 0).map (fun l =>
        (l.filter (fun e => e.type == "high")).map (fun e =>
          Ev.mk (e.datetime + 60 * 2) (e.height + 4) e.type)) ∧
    (find_extremes c3calc "holywell" 0).map (fun l => l.filter (fun e => e.type == "low")) =
      (find_extremes c3calc "newquay" 0).map (fun l =>
        (l.filter (fun e => e.type == "low")).map (fun e =>
          Ev.mk (e.datetime + 60 * 3) (e.height + 5) e.type)) :=
  C3_average_point_individual_extrema c3calc "holywell"
    (LocData.mk (fun _ => 0) 0 (some (StationOffset.mk 2 3 4 5)))
    (LocData.mk (fun q => q) 10 none) (StationOffset.mk 2 3 4 5) rfl rfl rfl rfl 7 0

/-- C6: a dependent station configured with `time_hw_min = 6` and
`height_hw_m = 0.5` returns exactly the reference station's high-tide
events with every time shifted by +6 minutes (360 seconds) and every
height increased by 0.5 m, the type field unchanged, for any day and any
low-water offsets. -/
theorem C6_hw_offset_shifts_high_events (c : TideCalc) (loc : String) (dep nq : LocData)
    (tlw hlw : ℚ) (hdep : c.locs loc = some dep)
    (hdo : dep.offsets = some (StationOffset.mk 6 tlw (1 / 2) hlw))
    (hnq : c.locs "newquay" = some nq) (hno : nq.offsets = none) (u : ℚ) :
    (find_extremes c loc u).map (fun l => l.filter (fun e => e.type == "high")) =
      (find_extremes c "newquay" u).map (fun l =>
        (l.filter (fun e => e.type == "high")).map (fun e =>
          Ev.mk (e.datetime + 360) (e.height + 1 / 2) e.type)) := by
  obtain ⟨evs0, hn, hd2⟩ :=
    find_extremes_sub c loc dep nq (StationOffset.mk 6 tlw (1 / 2) hlw) hdep hdo hnq hno u
  rw [hd2, hn, Option.map_some', Option.map_some']
  refine congrArg some ?_
  refine filter_sort_shift _ _ _ _ 360 (1 / 2) "high" evs0 ?_
  intro e he
  rw [shiftEv, if_pos he]
  norm_num

def c6calc : TideCalc :=
  TideCalc.mk (fun l =>
    if l = "newquay" then some (LocData.mk (fun q => q) 0 none)
    else if l = "holywell" then
      some (LocData.mk (fun _ => 0) 0 (some (StationOffset.mk 6 0 (1 / 2) 0))) else none)

theorem C6_witness :
    (find_extremes c6calc "holywell" 0).map (fun l => l.filter (fun e => e.type == "high")) =
      (find_extremes c6calc "newquay" 0).map (fun l =>
        (l.filter (fun e => e.type == "high")).map (fun e =>
          Ev.mk (e.datetime + 360) (e.height + 1 / 2) e.type)) :=
  C6_hw_offset_shifts_high_events c6calc "holywell"
    (LocData.mk (fun _ => 0) 0 (some (StationOffset.mk 6 0 (1 / 2) 0)))
    (LocData.mk (fun q => q) 0 none) 0 0 rfl rfl rfl rfl 0

/-- C7: `hourly_heights` yields exactly 25 samples at hour offsets 0
through 24 from the day's midnight, and the `build_cache` persistence
filter keeps exactly the 24 samples whose calendar date equals the
target day — the hour-24 sample, which falls on the next day, is
filtered out. -/
theorem C7_hourly_25_persist_24 (c : TideCalc) (loc : String) (base : LocData)
    (hb : c.locs (baseLocOf c loc) = some base) (d : ℤ) :
    ∃ l : List (ℚ × ℚ),
      hourly_heights c loc (86400 * (d : ℚ)) = some l ∧
      l.map Prod.fst = (List.range 25).map (fun hr : ℕ => 86400 * (d : ℚ) + 3600 * (hr : ℚ)) ∧
      buildHourlyRows c loc d = some (l.take 24) := by
  have hds : dayStart (86400 * (d : ℚ)) = 86400 * (d : ℚ) := by
    rw [dayStart]
    have h1 : (86400 : ℚ) * d / 86400 = (d : ℚ) := by
      field_simp
    rw [h1, Int.floor_intCast]
  obtain ⟨adj, hval⟩ : ∃ adj : ℚ, ∀ q : ℚ,
      height_at c loc q = some (base.mean_level + base.synth q + adj) := by
    cases ho : offsetsOf c loc with
    | none =>
      refine ⟨0, fun q => ?_⟩
      rw [height_at, hb, ho, add_zero]
    | some o =>
      refine ⟨o.height_hw_m / 2 + o.height_lw_m / 2, fun q => ?_⟩
      rw [height_at, hb, ho]
  have hmap : hourly_heights c loc (86400 * (d : ℚ)) =
      some ((List.range 25).map (fun hr : ℕ =>
        (86400 * (d : ℚ) + 3600 * (hr : ℚ),
          base.mean_level + base.synth (86400 * (d : ℚ) + 3600 * (hr : ℚ)) + adj))) := by
    rw [hourly_heights]
    refine mapM_eq_map _ _ (List.range 25) ?_
    intro x _
    rw [hds, hval]
    rfl
  refine ⟨_, hmap, ?_, ?_⟩
  · rw [List.map_map]
    rfl
  · rw [buildHourlyRows, hmap, Option.map_some']
    refine congrArg some ?_
    have hfl : ∀ hr : ℕ, hr < 24 → ⌊(86400 * (d : ℚ) + 3600 * (hr : ℚ)) / 86400⌋ = d := by
      intro hr hhr
      have h1 : (86400 * (d : ℚ) + 3600 * (hr : ℚ)) / 86400 =
          3600 * (hr : ℚ) / 86400 + (d : ℚ) := by
        ring
      rw [h1, Int.floor_add_int]
      have h2 : ⌊3600 * (hr : ℚ) / 86400⌋ = 0 := by
        rw [Int.floor_eq_zero_iff]
        constructor
        · positivity
        · have h3 : (hr : ℚ) ≤ 23 := by
            exact_mod_cast Nat.le_of_lt_succ hhr
          rw [div_lt_one (by norm_num : (0:ℚ) < 86400)]
          linarith
      rw [h2, zero_add]
    have hfl24 : ⌊(86400 * (d : ℚ) + 3600 * ((24 : ℕ) : ℚ)) / 86400⌋ = d + 1 := by
      have h1 : (86400 * (d : ℚ) + 3600 * ((24 : ℕ) : ℚ)) / 86400 = ((d + 1 : ℤ) : ℚ) := by
        push_cast
        ring
      rw [h1, Int.floor_intCast]
    have hsplit : List.range 25 = List.range 24 ++ [24] := by decide
    have hkeep : List.filter (fun s : ℚ × ℚ => decide (⌊s.1 / 86400⌋ = d))
        ((List.range 24).map (fun hr : ℕ =>
          (86400 * (d : ℚ) + 3600 * (hr : ℚ),
            base.mean_level + base.synth (86400 * (d : ℚ) + 3600 * (hr : ℚ)) + adj))) =
        (List.range 24).map (fun hr : ℕ =>
          (86400 * (d : ℚ) + 3600 * (hr : ℚ),
            base.mean_level + base.synth (86400 * (d : ℚ) + 3600 * (hr : ℚ)) + adj)) := by
      rw [List.filter_eq_self]
      intro a ha
      obtain ⟨hr, hhr, rfl⟩ := List.mem_map.1 ha
      have hlt : hr < 24 := List.mem_range.1 hhr
      simp [hfl hr hlt]
    have hsingle : List.filter (fun s : ℚ × ℚ => decide (⌊s.1 / 86400⌋ = d))
        (([24] : List ℕ).map (fun hr : ℕ =>
          (86400 * (d : ℚ) + 3600 * (hr : ℚ),
            base.mean_level + base.synth (86400 * (d : ℚ) + 3600 * (hr : ℚ)) + adj))) = [] := by
      simp only [List.map_cons, List.map_nil, List.filter_cons, List.filter_nil]
      have hnot : ¬ (⌊(86400 * (d : ℚ) + 3600 * ((24 : ℕ) : ℚ)) / 86400⌋ = d) := by
        rw [hfl24]
        omega
      have h24q : ((24 : ℕ) : ℚ) = (24 : ℚ) := by norm_num
      rw [h24q] at hnot
      simp [hnot]
    have htake : (List.range 25).take 24 = List.range 24 := by
      rw [hsplit, List.take_append_of_le_length (by simp), List.take_of_length_le (by simp)]
    conv_lhs => rw [hsplit]
    rw [List.map_append, List.filter_append, hkeep, hsingle, List.append_nil,
      ← List.map_take, htake]

def hourlyCalc : TideCalc :=
  TideCalc.mk (fun l =>
    if l = "loc1" then some (LocData.mk (fun _ => 0) 1 none) else none)

theorem C7_witness :
    ∃ l : List (ℚ × ℚ),
      hourly_heights hourlyCalc "loc1" (86400 * ((0 : ℤ) : ℚ)) = some l ∧
      l.map Prod.fst =
        (List.range 25).map (fun hr : ℕ => 86400 * (((0 : ℤ)) : ℚ) + 3600 * (hr : ℚ)) ∧
      buildHourlyRows hourlyCalc "loc1" 0 = some (l.take 24) :=
  C7_hourly_25_persist_24 hourlyCalc "loc1" (LocData.mk (fun _ => 0) 1 none) rfl 0

/-- C1: a location whose external source identifier fails to fetch, or
fetches but parses to nothing, keeps exactly its pre-overlay prediction
rows: `scrape_and_overlay` leaves `rowsFor loc` of the predictions table
unchanged, whatever happens for the other locations. -/
theorem C1_failed_source_keeps_rows (fetchParse : String → Option (List Forecast))
    (db0 : List Row) (loc slug : String) (hmem : (loc, slug) ∈ SCRAPE_SLUGS)
    (hfail : fetchParse slug = none ∨ fetchParse slug = some []) :
    rowsFor loc (scrape_and_overlay fetchParse db0).db = rowsFor loc db0 := by
  rw [scrape_and_overlay]
  refine scrape_fold_rows fetchParse loc SCRAPE_SLUGS (ScrapeState.mk [] db0 []) ?_ ?_
  · intro q hq
    cases hq
  · intro q hq hq1
    have hqs : q.2 = slug := by
      simp only [SCRAPE_SLUGS, List.mem_cons, List.not_mem_nil, or_false] at hmem hq
      rcases hmem with h1 | h1 | h1 | h1 <;> rcases hq with h2 | h2 | h2 | h2 <;>
        (try subst h2) <;>
        (try (injection h1 with ha hb)) <;>
        (try subst ha) <;>
        (try subst hb) <;>
        simp at hq1 ⊢
    rw [hqs]
    exact hfail

def c1db : List Row :=
  [Row.mk "newquay" "2026-02-01T03:00:00" "high" 5]

theorem C1_witness :
    rowsFor "newquay" (scrape_and_overlay (fun _ => none) c1db).db =
      rowsFor "newquay" c1db :=
  C1_failed_source_keeps_rows (fun _ => none) c1db "newquay" "newquay"
    (by decide) (Or.inl rfl)

/-- C5 counterexample: with every fetch failing, the slug `"newquay"` —
shared by the locations `newquay` and `holywell` — is fetched twice in
one pass, because a failed fetch is not cached and the second location
mapped to the identifier triggers a fresh attempt. This refutes the
claim that each distinct identifier is fetched at most once even when
the fetch or parse fails. -/
theorem C5_counterexample :
    (scrape_and_overlay (fun _ => none) []).attempts.count "newquay" = 2 := by
  decide

/-- C5 (amended): each distinct external source identifier whose fetch
and parse succeed with a non-empty forecast list is fetched and parsed
at most once per pass, and the cached result is reused by every further
location mapped to it; a failed fetch or empty parse is not cached, so
each later location mapped to that identifier triggers a fresh fetch
attempt. -/
theorem C5_success_fetched_once (fetchParse : String → Option (List Forecast))
    (db0 : List Row) (slug : String) (fs : List Forecast)
    (hfp : fetchParse slug = some fs) (hne : fs ≠ []) :
    (scrape_and_overlay fetchParse db0).attempts.count slug ≤ 1 := by
  rw [scrape_and_overlay]
  refine scrape_count_le_one fetchParse slug fs hfp hne SCRAPE_SLUGS
    (ScrapeState.mk [] db0 []) ?_ ?_
  · simp
  · intro h
    simp at h

theorem C5_witness :
    (scrape_and_overlay
        (fun _ => some [Forecast.mk "2026-02-01T03:00:00" "high" 5]) []).attempts.count
      "newquay" ≤ 1 :=
  C5_success_fetched_once (fun _ => some [Forecast.mk "2026-02-01T03:00:00" "high" 5]) []
    "newquay" [Forecast.mk "2026-02-01T03:00:00" "high" 5] rfl (by simp)

/-- C4 counterexample: for the day starting at 0, the 6-minute grid of
`find_extremes` ends at `day_start + 25 h` (90000 s); in particular
`day_start + 26 h` (93600 s) is not among the samples, so the grid does
not cover the closed interval `[day_start − 1 h, day_start + 26 h]`
stated by the claim. -/
theorem C4_counterexample :
    (gridTimes 0).getLast? = some 90000 ∧ (93600 : ℚ) ∉ gridTimes 0 := by
  have hds : dayStart 0 = 0 := by
    rw [dayStart]
    norm_num
  constructor
  · rw [gridTimes_eq]
    have h261 : List.range 261 = List.range 260 ++ [260] := by
      rw [show (261 : ℕ) = 260 + 1 from rfl, List.range_succ]
    rw [h261, List.map_append, List.map_cons, List.map_nil, List.getLast?_concat, hds]
    refine congrArg some ?_
    push_cast
    ring
  · rw [gridTimes_eq, hds]
    intro hc
    obtain ⟨i, hi, he⟩ := List.mem_map.1 hc
    have hi261 : i < 261 := List.mem_range.1 hi
    have hle : (i : ℚ) ≤ 260 := by
      exact_mod_cast Nat.le_of_lt_succ hi261
    have : (0 : ℚ) - 3600 + 360 * (i : ℚ) ≤ 90000 := by linarith
    rw [he] at this
    norm_num at this

/-- C4 (amended): `find_extremes` samples on a uniform grid at fixed
6-minute (360 s) spacing covering the closed interval
`[day_start − 1 h, day_start + 25 h]`: the grid is the 261-point
arithmetic progression starting one hour before midnight, whose first
sample is `day_start − 1 h` and whose last sample is
`day_start + 25 h` (the loop bound is `start + 26 h` with
`start = day_start − 1 h`). -/
theorem C4_grid_window (t : ℚ) :
    gridTimes t = (List.range 261).map (fun i : ℕ => dayStart t - 3600 + 360 * (i : ℚ)) ∧
    (gridTimes t).head? = some (dayStart t - 3600) ∧
    (gridTimes t).getLast? = some (dayStart t + 25 * 3600) := by
  refine ⟨gridTimes_eq t, ?_, ?_⟩
  · rw [gridTimes_eq]
    have h261 : List.range 261 = 0 :: List.range' 1 260 := by
      rw [List.range_eq_range', show (261 : ℕ) = 260 + 1 from rfl, List.range'_succ]
    rw [h261, List.map_cons, List.head?_cons]
    refine congrArg some ?_
    push_cast
    ring
  · rw [gridTimes_eq]
    have h261 : List.range 261 = List.range 260 ++ [260] := by
      rw [show (261 : ℕ) = 260 + 1 from rfl, List.range_succ]
    rw [h261, List.map_append, List.map_cons, List.map_nil, List.getLast?_concat]
    refine congrArg some ?_
    push_cast
    ring
